import Mathlib

/-!
# Verification of the VGM → note-list converter (`src/conv.py`)

This file shallowly embeds the core of `conv.py`: the `process_vgm` state
machine that replays an NES-APU register-write/wait command stream and
run-length-encodes the per-tick resolved pitches of the four channels
(Pulse1, Pulse2, Triangle, Noise), together with the pitch-resolution
helpers `period_to_pitch` and `noise_pitch`.

Modelling conventions:
* Python integers are `Nat` (every quantity in the source is non-negative:
  register bytes, counters, the sample clock, pitches, durations).
* The Python lists `channels`, `channel_regs`, `length_counters` (each of
  length 4, indexed 0..3) are modelled as functions `Nat → _`; the program
  only ever reads and writes indices 0..3.
* The `while clock >= SAMPLES_PER_TICK` loop in `process_vgm` subtracts
  exactly `SAMPLES_PER_TICK` from `clock` on every iteration and changes
  `clock` nowhere else, so its trip count is exactly
  `clock / SAMPLES_PER_TICK`; `doWait` runs the loop body that many times
  (`runTicks` is the fuel-indexed loop).
* Fallible operations abort the Python program with an exception
  (`struct.unpack` on a payload that is not exactly 2 bytes, tuple
  unpacking of the 0xB4 payload); the embedding returns `none` there.
* Python's float evaluation of
  `int(round(69 + 12 * math.log2(hz / 440)))` with
  `hz = 1789773/(16*(period+1))` is modelled as the exact real-arithmetic
  value, expressed as an exact integer computation (see `note_number`).
* `NOISE_TBL[period]` and `LENGTH_TBL[byte >> 3]` raise `IndexError` when
  the index is out of range; with the masks applied by the source
  (`& 0x0f`, and 8-bit register bytes) the indices are always in range, and
  the embedding totalises the lookup with default `0` (`List.getD`).
* The state carries one ghost field `ticks`, incremented once per
  iteration of the tick loop and never read: it counts the ticks the
  scheduler performed, which several spec properties quantify over.
-/

namespace Conv

set_option maxRecDepth 100000

/-- Channel indices, as in `conv.py`. -/
def PULSE1 : Nat := 0

def PULSE2 : Nat := 1

def TRI : Nat := 2

def NOISE : Nat := 3

/-- `SAMPLES_PER_TICK = 184` (approx. 240 Hz at 44100 samples/s). -/
def SAMPLES_PER_TICK : Nat := 184

/-- The noise pitch-bucket table `NOISE_TBL`. -/
def NOISE_TBL : List Nat :=
  [100, 100, 100, 100, 90, 90, 90, 90, 80, 80, 80, 80, 70, 70, 70, 70]

/-- The hardware length-counter reload table `LENGTH_TBL` (32 entries). -/
def LENGTH_TBL : List Nat :=
  [10, 254, 20, 2, 40, 4, 80, 6, 160, 8, 60, 10, 14, 12, 26, 14,
   12, 16, 24, 18, 48, 20, 96, 22, 192, 24, 72, 26, 16, 28, 32, 30]

/-- `noise_pitch(period) = int(NOISE_TBL[period])`.  The source always calls
it with `period = reg2 & 0x0f < 16`, in range; out-of-range indices (which
would raise `IndexError` in Python) are totalised to `0`. -/
def noise_pitch (period : Nat) : Nat :=
  NOISE_TBL.getD period 0

/-- The exact value of `int(round(69 + 12 * math.log2(hz / 440)))` with
`hz = 1789773/(16*(period+1))`, the body of `period_to_pitch` before the
high-pitch cutoff, with the float arithmetic read as exact real arithmetic.

Derivation of the integer characterisation: write
`x = hz/440 = 1789773 / (7040*(period+1))` and `v = 69 + 12 * log2 x`.
`round v = n` iff `n - 1/2 ≤ v < n + 1/2` (exact half-integer values of `v`
are impossible: `24 * log2 x` an odd integer would force
`1789773^24 * 2^j = (7040*(period+1))^24` for some integer offset, which
fails on 2-adic valuation since `1789773` is odd and the right side's
valuation is a multiple of 24).  That interval condition is equivalent to
`2*n - 139 ≤ 24 * log2 x < 2*n - 137`, i.e.
`2^(2*n) ≤ x^24 * 2^139 < 2^(2*n+2)`, i.e.
`2^(2*n) * (7040*(period+1))^24 ≤ 1789773^24 * 2^139` and not so for
`n + 1`.  For every period `0 ≤ period ≤ 4094` reachable from an 11-bit
hardware period (doubled for Triangle) the value `n` lies in `[21, 165]`,
within the search bound `255`. -/
def note_number (period : Nat) : Nat :=
  Nat.findGreatest
    (fun n => 2 ^ (2 * n) * (7040 * (period + 1)) ^ 24 ≤ 1789773 ^ 24 * 2 ^ 139)
    255

/-- `period_to_pitch`: MIDI note number of an 11-bit period, with note
numbers `≥ 100` discarded to `0` (the anti-squeal rule). -/
def period_to_pitch (period : Nat) : Nat :=
  let n := note_number period
  if n < 100 then n else 0

/-- A run-length-encoded note: `Note(pitch, duration)`. -/
structure Note where
  pitch : Nat
  duration : Nat
deriving DecidableEq, Repr

/-- The mutable state of `process_vgm` (locals of the function), plus the
ghost tick counter `ticks`. -/
structure APUState where
  channels : Nat → List Note
  channel_regs : Nat → Nat → Nat
  reg4015 : Nat
  reg4017 : Nat
  length_counters : Nat → Nat
  linear_counter_reload : Nat
  clock : Nat
  ticks : Nat

/-- The initial state built at the top of `process_vgm`: each channel's
timeline is seeded with `Note(0, 0)`, all registers and counters are 0. -/
def initState : APUState where
  channels := fun _ => [⟨0, 0⟩]
  channel_regs := fun _ _ => 0
  reg4015 := 0
  reg4017 := 0
  length_counters := fun _ => 0
  linear_counter_reload := 0
  clock := 0
  ticks := 0

/-- The run-length note encoder (lines 104–108 of `conv.py`): if `pitch`
equals the last note's pitch and that note's duration is `< 9999`, bump the
last note's duration, otherwise append `Note(pitch, 1)`.  The timeline is
never empty in the program (it is seeded with `Note(0,0)`); on `[]` the
embedding appends. -/
def emit (tl : List Note) (pitch : Nat) : List Note :=
  match tl.getLast? with
  | some last =>
      if pitch = last.pitch ∧ last.duration < 9999 then
        tl.dropLast ++ [⟨last.pitch, last.duration + 1⟩]
      else
        tl ++ [⟨pitch, 1⟩]
  | none => tl ++ [⟨pitch, 1⟩]

/-- Pitch resolution for channel `i` at the top of the tick loop body
(lines 91–103 of `conv.py`). -/
def resolvePitch (s : APUState) (i : Nat) : Nat :=
  let vol := if i = TRI then 15 else s.channel_regs i 0 &&& 0x0f
  let vol := if s.length_counters i = 0 then 0 else vol
  if vol = 0 then 0
  else if i = NOISE then
    noise_pitch (s.channel_regs i 2 &&& 0x0f)
  else
    let period := ((s.channel_regs i 3 &&& 0x07) <<< 8) ||| s.channel_regs i 2
    let period := if i = TRI then period * 2 else period
    period_to_pitch period

/-- The length-counter gate computed at the top of each tick (lines 84–89):
in 5-step mode (bit 6 of the stored mode byte set) the counters are clocked
iff `clock % 5 ≠ 4`; in 4-step mode they are always clocked. -/
def gateOf (s : APUState) : Bool :=
  if s.reg4017 &&& 0x40 ≠ 0 then s.clock % 5 != 4 else true

/-- One iteration of `for i in range(4)` inside the tick loop: resolve the
channel's pitch, feed it to the encoder, then (when the gate is open and
bit 7 of the channel's register 0 is clear) clock the length counter,
flooring at 0. -/
def tickChannel (gate : Bool) (s : APUState) (i : Nat) : APUState :=
  let pitch := resolvePitch s i
  let s' := { s with channels := Function.update s.channels i (emit (s.channels i) pitch) }
  if gate = true ∧ s'.channel_regs i 0 &&& 0x80 = 0 then
    { s' with length_counters :=
        Function.update s'.length_counters i (max (s'.length_counters i - 1) 0) }
  else s'

/-- One full tick: compute the gate, run the four channels in order, then
subtract one tick's worth of samples from the clock (and count the tick). -/
def doTick (s : APUState) : APUState :=
  let gate := gateOf s
  let s' := [0, 1, 2, 3].foldl (fun t i => tickChannel gate t i) s
  { s' with clock := s'.clock - SAMPLES_PER_TICK, ticks := s'.ticks + 1 }

/-- `runTicks n s` performs `n` iterations of the tick-loop body. -/
def runTicks : Nat → APUState → APUState
  | 0, s => s
  | n + 1, s => runTicks n (doTick s)

/-- A wait command: add the decoded sample count to the clock, then run the
`while clock >= SAMPLES_PER_TICK` loop, whose trip count is exactly
`clock / SAMPLES_PER_TICK` (each iteration subtracts `SAMPLES_PER_TICK`). -/
def doWait (s : APUState) (wait_time : Nat) : APUState :=
  let clock := s.clock + wait_time
  runTicks (clock / SAMPLES_PER_TICK) { s with clock := clock }

/-- An APU register write (lines 115–135): registers `< 0x10` address the
four channels' four register slots; a slot-0 write to Triangle updates the
linear-counter reload; a slot-3 write reloads the length counter from
`LENGTH_TBL` (doubled), clamped for Triangle by the linear reload;
`0x15`/`0x17` store the chip-wide bytes; other registers are ignored. -/
def doWrite (s : APUState) (reg byte : Nat) : APUState :=
  if reg < 0x10 then
    let chan_id := reg / 4
    let chan_reg := reg % 4
    let regs' := Function.update s.channel_regs chan_id
      (Function.update (s.channel_regs chan_id) chan_reg byte)
    let s1 := { s with channel_regs := regs' }
    let s2 :=
      if chan_reg = 0 ∧ chan_id = TRI then
        { s1 with linear_counter_reload := if byte = 0 then 0 else byte &&& 0x7f }
      else s1
    if chan_reg = 3 then
      let length := LENGTH_TBL.getD (byte >>> 3) 0 * 2
      let length := if chan_id = TRI then min length s2.linear_counter_reload else length
      { s2 with length_counters := Function.update s2.length_counters chan_id length }
    else s2
  else if reg = 0x15 then { s with reg4015 := byte }
  else if reg = 0x17 then { s with reg4017 := byte }
  else s

/-- One decoded command of the input stream: the opcode byte and its
payload bytes, as produced by the container parser. -/
structure Command where
  cmd : Nat
  data : List Nat
deriving DecidableEq, Repr

/-- Decode the sample count of a wait command (lines 74–81): opcode `0x61`
carries a little-endian 16-bit count (exactly two payload bytes, otherwise
`struct.unpack` raises and the program aborts — `none`); `0x62`/`0x63` are
the fixed frame waits 735/882; `0x70 + n` waits `n` samples. -/
def waitTime (c : Command) : Option Nat :=
  if c.cmd = 0x61 then
    match c.data with
    | [lo, hi] => some (lo + 256 * hi)
    | _ => none
  else if c.cmd = 0x62 then some 735
  else if c.cmd = 0x63 then some 882
  else some (c.cmd - 0x70)

/-- The command dispatch loop of `process_vgm` (lines 69–140): waits drive
the tick scheduler, `0xB4` is an APU register write (its payload must be
exactly `[reg, byte]`, otherwise the tuple unpacking raises — `none`),
`0x66` breaks out of the loop immediately, anything else is reported as
unsupported and skipped. -/
def processCmds : List Command → APUState → Option APUState
  | [], s => some s
  | c :: rest, s =>
    if (0x61 ≤ c.cmd ∧ c.cmd ≤ 0x63) ∨ (0x70 ≤ c.cmd ∧ c.cmd ≤ 0x7f) then
      match waitTime c with
      | some w => processCmds rest (doWait s w)
      | none => none
    else if c.cmd = 0xb4 then
      match c.data with
      | [reg, byte] => processCmds rest (doWrite s reg byte)
      | _ => none
    else if c.cmd = 0x66 then some s
    else processCmds rest s

/-- `process_vgm`: run the command stream from the initial state and return
the four channel timelines. -/
def process_vgm (cs : List Command) : Option (Nat → List Note) :=
  (processCmds cs initState).map (fun s => s.channels)

/-- Total duration of a timeline: the sum of its notes' durations. -/
def sumDur (tl : List Note) : Nat :=
  (tl.map (fun n => n.duration)).sum

/-- A `0x61` wait command carrying the little-endian 16-bit count `n`. -/
def waitCmd (n : Nat) : Command :=
  ⟨0x61, [n % 256, n / 256]⟩

/-- A stream making the Noise channel audible with noise period nibble 0:
set the noise volume nibble (register `0x0C`), load its length counter
(register `0x0F`), then wait one tick. -/
def csC1 : List Command :=
  [⟨0xb4, [0x0C, 0x1F]⟩, ⟨0xb4, [0x0F, 0x08]⟩, waitCmd 184]

/-- 5-step mode, Noise length counter loaded with 4 (halt bit clear), then
five ticks each produced by a wait of exactly 184 samples: every tick fires
with `clock = 184` and `184 % 5 = 4`, so the length counters are never
clocked. -/
def csC2a : List Command :=
  [⟨0xb4, [0x17, 0x40]⟩, ⟨0xb4, [0x0C, 0x01]⟩, ⟨0xb4, [0x0F, 0x18]⟩,
   waitCmd 184, waitCmd 184, waitCmd 184, waitCmd 184, waitCmd 184]

/-- The same register writes and the same number of ticks (and even the
same total sample count) as `csC2a`, but the first wait is 185 samples and
the last 183: the first four ticks now fire with `clock % 5 = 0`, so the
length counters are clocked and the noise channel dies before tick 5. -/
def csC2b : List Command :=
  [⟨0xb4, [0x17, 0x40]⟩, ⟨0xb4, [0x0C, 0x01]⟩, ⟨0xb4, [0x0F, 0x18]⟩,
   waitCmd 185, waitCmd 184, waitCmd 184, waitCmd 184, waitCmd 183]

/-- A small stream with waits and a register write, for exercising the
time-conservation invariant. -/
def csC4 : List Command :=
  [waitCmd 184, ⟨0xb4, [0x0F, 0x18]⟩, waitCmd 400]

/-- A small stream producing an audible noise run, for exercising the
encoder invariants. -/
def csC7 : List Command :=
  [⟨0xb4, [0x0C, 0x1F]⟩, ⟨0xb4, [0x0F, 0x08]⟩, waitCmd 380]

/-- Two streams that differ only in the byte written to register `0x15`. -/
def csC10a : List Command :=
  [⟨0xb4, [0x15, 0x00]⟩, waitCmd 184]

/-- See `csC10a`. -/
def csC10b : List Command :=
  [⟨0xb4, [0x15, 0x1F]⟩, waitCmd 184]

/-- Forget the stored enable-mask byte (chip register `0x15`). -/
def scrub (s : APUState) : APUState :=
  { s with reg4015 := 0 }

/-- Overwrite the stored enable-mask byte. -/
def setReg4015 (x : Nat) (s : APUState) : APUState :=
  { s with reg4015 := x }

/-- Two commands are `similar15` when they are equal, or both are register
writes to the chip-wide enable mask `0x15` (with possibly different
values). -/
def similar15 (c1 c2 : Command) : Prop :=
  c1 = c2 ∨ ∃ b1 b2, c1 = ⟨0xb4, [0x15, b1]⟩ ∧ c2 = ⟨0xb4, [0x15, b2]⟩

/-! ## Component lemmas about one channel-iteration of the tick loop -/

theorem tickChannel_channel_regs (g : Bool) (s : APUState) (i : Nat) :
    (tickChannel g s i).channel_regs = s.channel_regs := by
  simp only [tickChannel]
  split <;> rfl

theorem tickChannel_reg4017 (g : Bool) (s : APUState) (i : Nat) :
    (tickChannel g s i).reg4017 = s.reg4017 := by
  simp only [tickChannel]
  split <;> rfl

theorem tickChannel_reg4015 (g : Bool) (s : APUState) (i : Nat) :
    (tickChannel g s i).reg4015 = s.reg4015 := by
  simp only [tickChannel]
  split <;> rfl

theorem tickChannel_clock (g : Bool) (s : APUState) (i : Nat) :
    (tickChannel g s i).clock = s.clock := by
  simp only [tickChannel]
  split <;> rfl

theorem tickChannel_ticks (g : Bool) (s : APUState) (i : Nat) :
    (tickChannel g s i).ticks = s.ticks := by
  simp only [tickChannel]
  split <;> rfl

theorem tickChannel_linear (g : Bool) (s : APUState) (i : Nat) :
    (tickChannel g s i).linear_counter_reload = s.linear_counter_reload := by
  simp only [tickChannel]
  split <;> rfl

theorem tickChannel_channels (g : Bool) (s : APUState) (i : Nat) :
    (tickChannel g s i).channels =
      Function.update s.channels i (emit (s.channels i) (resolvePitch s i)) := by
  simp only [tickChannel]
  split <;> rfl

theorem tickChannel_length_counters (g : Bool) (s : APUState) (i : Nat) :
    (tickChannel g s i).length_counters =
      if g = true ∧ s.channel_regs i 0 &&& 0x80 = 0 then
        Function.update s.length_counters i (max (s.length_counters i - 1) 0)
      else s.length_counters := by
  simp only [tickChannel]
  split <;> rfl

theorem tickChannel_channels_ne (g : Bool) (s : APUState) {i j : Nat} (h : i ≠ j) :
    (tickChannel g s j).channels i = s.channels i := by
  rw [tickChannel_channels, Function.update_noteq h]

theorem tickChannel_length_counters_ne (g : Bool) (s : APUState) {i j : Nat} (h : i ≠ j) :
    (tickChannel g s j).length_counters i = s.length_counters i := by
  rw [tickChannel_length_counters]
  split
  · rw [Function.update_noteq h]
  · rfl

/-- `resolvePitch` only reads the channel's registers and its length
counter. -/
theorem resolvePitch_congr {s t : APUState} (i : Nat)
    (hr : t.channel_regs = s.channel_regs)
    (hl : t.length_counters i = s.length_counters i) :
    resolvePitch t i = resolvePitch s i := by
  simp only [resolvePitch, hr, hl]

theorem resolvePitch_tickChannel_ne (g : Bool) (s : APUState) {i j : Nat} (h : i ≠ j) :
    resolvePitch (tickChannel g s j) i = resolvePitch s i :=
  resolvePitch_congr i (tickChannel_channel_regs g s j)
    (tickChannel_length_counters_ne g s h)

/-! ## Characterisation of one full tick, channel by channel -/

theorem doTick_channels (s : APUState) {i : Nat} (h : i < 4) :
    (doTick s).channels i = emit (s.channels i) (resolvePitch s i) := by
  interval_cases i <;>
    simp [doTick, tickChannel_channels_ne, tickChannel_channel_regs,
      tickChannel_channels, resolvePitch_tickChannel_ne,
      Function.update_same, Function.update_noteq]

theorem doTick_length_counters (s : APUState) {i : Nat} (h : i < 4) :
    (doTick s).length_counters i =
      if gateOf s = true ∧ s.channel_regs i 0 &&& 0x80 = 0 then
        s.length_counters i - 1
      else s.length_counters i := by
  interval_cases i <;>
    simp [doTick, tickChannel_length_counters_ne, tickChannel_channel_regs,
      tickChannel_length_counters, ite_apply,
      Function.update_same, Function.update_noteq]

theorem doTick_channel_regs (s : APUState) :
    (doTick s).channel_regs = s.channel_regs := by
  simp [doTick, tickChannel_channel_regs]

theorem doTick_reg4017 (s : APUState) : (doTick s).reg4017 = s.reg4017 := by
  simp [doTick, tickChannel_reg4017]

theorem doTick_ticks (s : APUState) : (doTick s).ticks = s.ticks + 1 := by
  simp [doTick, tickChannel_ticks]

theorem doTick_clock (s : APUState) :
    (doTick s).clock = s.clock - SAMPLES_PER_TICK := by
  simp [doTick, tickChannel_clock]

/-! ## The encoder adds exactly one tick of duration per emit -/

theorem sumDur_append (l1 l2 : List Note) :
    sumDur (l1 ++ l2) = sumDur l1 + sumDur l2 := by
  simp [sumDur]

theorem sumDur_emit (tl : List Note) (p : Nat) :
    sumDur (emit tl p) = sumDur tl + 1 := by
  cases h : tl.getLast? with
  | none =>
    rw [List.getLast?_eq_none_iff] at h
    subst h
    simp [emit, sumDur]
  | some last =>
    have hd : tl.dropLast ++ [last] = tl := List.dropLast_append_getLast? last h
    simp only [emit, h]
    split
    · conv_rhs => rw [← hd]
      rw [sumDur_append, sumDur_append]
      simp only [sumDur, List.map_cons, List.map_nil, List.sum_cons, List.sum_nil]
      omega
    · rw [sumDur_append]
      simp only [sumDur, List.map_cons, List.map_nil, List.sum_cons, List.sum_nil]
      omega

/-! ## Plumbing: invariants through the scheduler and the dispatcher -/

theorem runTicks_inv (Q : APUState → Prop) (hT : ∀ s, Q s → Q (doTick s)) :
    ∀ n s, Q s → Q (runTicks n s) := by
  intro n
  induction n with
  | zero => intro s hq; exact hq
  | succ n ih => intro s hq; exact ih _ (hT _ hq)

theorem doWait_inv (Q : APUState → Prop) (hT : ∀ s, Q s → Q (doTick s))
    (hC : ∀ s c, Q s → Q { s with clock := c }) (s : APUState) (w : Nat)
    (hq : Q s) : Q (doWait s w) :=
  runTicks_inv Q hT _ _ (hC _ _ hq)

theorem doWrite_channels (s : APUState) (r b : Nat) :
    (doWrite s r b).channels = s.channels := by
  simp only [doWrite]
  split_ifs <;> rfl

theorem doWrite_ticks (s : APUState) (r b : Nat) :
    (doWrite s r b).ticks = s.ticks := by
  simp only [doWrite]
  split_ifs <;> rfl

/-- Any property of the state preserved by waits and register writes is
carried from the start state to a successful run's final state. -/
theorem processCmds_inv (Q : APUState → Prop)
    (hW : ∀ s w, Q s → Q (doWait s w))
    (hR : ∀ s r b, Q s → Q (doWrite s r b)) :
    ∀ cs s out, processCmds cs s = some out → Q s → Q out := by
  intro cs
  induction cs with
  | nil =>
    intro s out h hq
    obtain rfl := Option.some.inj h
    exact hq
  | cons c rest ih =>
    intro s out h hq
    simp only [processCmds] at h
    split at h
    · split at h
      next w hw => exact ih _ _ h (hW _ _ hq)
      next hw => cases h
    · split at h
      · split at h
        next r b => exact ih _ _ h (hR _ _ _ hq)
        next => cases h
      · split at h
        · obtain rfl := Option.some.inj h
          exact hq
        · exact ih _ _ h hq

/-! ## Bounds on resolved pitches -/

theorem noise_pitch_le (r : Nat) : noise_pitch r ≤ 100 := by
  unfold noise_pitch
  rcases Nat.lt_or_ge r NOISE_TBL.length with hr | hr
  · rw [List.getD_eq_getElem _ _ hr]
    have hmem := List.getElem_mem hr
    have hall : ∀ x ∈ NOISE_TBL, x ≤ 100 := by decide
    exact hall _ hmem
  · rw [List.getD_eq_default _ _ hr]
    omega

theorem period_to_pitch_lt (p : Nat) : period_to_pitch p < 100 := by
  simp only [period_to_pitch]
  split
  · assumption
  · omega

theorem resolvePitch_of_length_zero (s : APUState) (i : Nat)
    (h : s.length_counters i = 0) : resolvePitch s i = 0 := by
  simp [resolvePitch, h]

/-- The fully let-expanded form of `resolvePitch`. -/
theorem resolvePitch_eq (s : APUState) (i : Nat) :
    resolvePitch s i =
      if (if s.length_counters i = 0 then 0
          else if i = TRI then 15 else s.channel_regs i 0 &&& 0x0f) = 0 then 0
      else if i = NOISE then noise_pitch (s.channel_regs i 2 &&& 0x0f)
      else
        period_to_pitch
          (if i = TRI then (((s.channel_regs i 3 &&& 0x07) <<< 8) ||| s.channel_regs i 2) * 2
           else ((s.channel_regs i 3 &&& 0x07) <<< 8) ||| s.channel_regs i 2) := rfl

theorem resolvePitch_le (s : APUState) (i : Nat) : resolvePitch s i ≤ 100 := by
  rw [resolvePitch_eq]
  by_cases h0 : (if s.length_counters i = 0 then 0
      else if i = TRI then 15 else s.channel_regs i 0 &&& 0x0f) = 0
  · rw [if_pos h0]
    omega
  · rw [if_neg h0]
    by_cases hn : i = NOISE
    · rw [if_pos hn]
      exact noise_pitch_le _
    · rw [if_neg hn]
      exact Nat.le_of_lt (period_to_pitch_lt _)

theorem resolvePitch_lt_of_ne (s : APUState) (i : Nat) (hne : i ≠ NOISE) :
    resolvePitch s i < 100 := by
  rw [resolvePitch_eq]
  by_cases h0 : (if s.length_counters i = 0 then 0
      else if i = TRI then 15 else s.channel_regs i 0 &&& 0x0f) = 0
  · rw [if_pos h0]
    omega
  · rw [if_neg h0, if_neg hne]
    exact period_to_pitch_lt _

/-! ## Claim C1 -/

/-- Claim C1, counterexample: in the stream `csC1` the Noise channel's
period nibble is 0, so `noise_pitch` returns `NOISE_TBL[0] = 100`, and the
tick feeds pitch 100 — which is not `< 100` — to the encoder: the produced
timeline records a note of pitch 100.  Pitches of the Noise channel are
not remapped to 0 when they reach 100. -/
theorem c1_counterexample :
    (process_vgm csC1).map (fun ch => ch NOISE) = some [⟨0, 0⟩, ⟨100, 1⟩] ∧
      ¬ (100 < 100) := by
  decide

/-- Claim C1, amended: every pitch resolved for the two pulse channels and
the triangle channel is strictly below 100 (`period_to_pitch` remaps note
numbers ≥ 100 to 0), while the Noise channel's pitch comes from the fixed
table `NOISE_TBL` and is only bounded by 100 — the value 100 itself is
emitted unjected. -/
theorem c1_high_pitch_suppression (s : APUState) (i : Nat) :
    resolvePitch s i ≤ 100 ∧ (i ≠ NOISE → resolvePitch s i < 100) :=
  ⟨resolvePitch_le s i, fun hne => resolvePitch_lt_of_ne s i hne⟩

/-- Witness for `c1_high_pitch_suppression` at channel 0 of the initial
state. -/
theorem c1_high_pitch_suppression_witness :
    resolvePitch initState 0 ≤ 100 ∧ resolvePitch initState 0 < 100 :=
  ⟨(c1_high_pitch_suppression initState 0).1,
   (c1_high_pitch_suppression initState 0).2 (by decide)⟩

/-! ## Claim C2 -/

/-- Claim C2, counterexample: `csC2a` and `csC2b` contain the same
register writes (5-step mode set, Noise loaded with length 4, halt clear)
and both produce exactly 5 ticks, yet their Noise timelines differ: the
gate is computed from the accumulated sample counter `clock % 5`, not from
a running tick count, so it depends on the individual wait commands'
sample counts.  In `csC2a` every one of the five consecutive ticks has the
gate OFF (clock is always 184, and `184 % 5 = 4`), contradicting "OFF on
exactly one of every five consecutive ticks" as well. -/
theorem c2_counterexample :
    (processCmds csC2a initState).map (fun s => s.ticks) = some 5 ∧
    (processCmds csC2b initState).map (fun s => s.ticks) = some 5 ∧
    (processCmds csC2a initState).map (fun s => s.channels NOISE) ≠
      (processCmds csC2b initState).map (fun s => s.channels NOISE) := by
  decide

/-- Claim C2, amended: with the 5-step bit (bit 6 of the stored mode byte)
set, the tick's length-counter gate is computed from the accumulated
sample counter: it is OFF exactly when `clock % 5 = 4` at the start of the
tick — a quantity that depends on the sample counts of the wait commands,
not only on how many ticks have elapsed; with the bit clear the gate is
always true. -/
theorem c2_gate_from_sample_clock (s : APUState) :
    (s.reg4017 &&& 0x40 ≠ 0 → (gateOf s = false ↔ s.clock % 5 = 4)) ∧
    (s.reg4017 &&& 0x40 = 0 → gateOf s = true) := by
  constructor
  · intro h
    simp only [gateOf, if_pos h]
    by_cases hc : s.clock % 5 = 4 <;> simp [hc]
  · intro h
    simp only [gateOf, h]
    simp

/-- Witness for `c2_gate_from_sample_clock`: a 5-step-mode state whose
clock holds 184 unconsumed samples has the gate OFF. -/
theorem c2_gate_from_sample_clock_witness :
    gateOf { initState with reg4017 := 0x40, clock := 184 } = false ↔
      (184 : Nat) % 5 = 4 :=
  (c2_gate_from_sample_clock { initState with reg4017 := 0x40, clock := 184 }).1
    (by decide)

/-! ## Claim C3 -/

/-- Claim C3, counterexample: `period_to_pitch` is not monotonically
non-increasing over the valid period range: period 42 resolves to note 100
which the anti-squeal rule remaps to 0, while the larger period 43
resolves to 99, so the pitch increases from period 42 to period 43. -/
theorem c3_counterexample :
    42 ≤ 43 ∧ 43 ≤ 2047 ∧
      period_to_pitch 42 = 0 ∧ period_to_pitch 43 = 99 ∧
      ¬ (period_to_pitch 43 ≤ period_to_pitch 42) := by
  decide

/-- Claim C3, amended: the underlying note-number computation is
monotonically non-increasing in the period, and `period_to_pitch` itself
is monotonically non-increasing as long as the smaller period's note
number is below the 100 ceiling (the remap-to-0 of notes ≥ 100 is the only
source of non-monotonicity). -/
theorem c3_pitch_monotone (p1 p2 : Nat) (h : p1 ≤ p2) :
    note_number p2 ≤ note_number p1 ∧
      (note_number p1 < 100 → period_to_pitch p2 ≤ period_to_pitch p1) := by
  have hm : note_number p2 ≤ note_number p1 := by
    apply Nat.findGreatest_mono _ le_rfl
    intro k hk
    refine le_trans ?_ hk
    apply mul_le_mul_left'
    apply Nat.pow_le_pow_left
    apply mul_le_mul_left'
    omega
  refine ⟨hm, fun h1 => ?_⟩
  have h2 : note_number p2 < 100 := lt_of_le_of_lt hm h1
  simp only [period_to_pitch]
  rw [if_pos h1, if_pos h2]
  exact hm

/-- Witness for `c3_pitch_monotone` at periods 100 ≤ 200. -/
theorem c3_pitch_monotone_witness :
    note_number 200 ≤ note_number 100 ∧ period_to_pitch 200 ≤ period_to_pitch 100 :=
  ⟨(c3_pitch_monotone 100 200 (by decide)).1,
   (c3_pitch_monotone 100 200 (by decide)).2 (by decide)⟩

/-! ## Claim C4 -/

/-- Claim C4: conservation of time — for every command stream that
processes successfully and every one of the four channels, the durations
of the notes in the channel's timeline (seeded with the placeholder
`Note(0,0)`) sum to exactly the number of ticks the scheduler performed. -/
theorem c4_time_conservation (cs : List Command) (out : APUState)
    (h : processCmds cs initState = some out) {i : Nat} (hi : i < 4) :
    sumDur (out.channels i) = out.ticks := by
  have hT : ∀ s : APUState, (∀ j, j < 4 → sumDur (s.channels j) = s.ticks) →
      ∀ j, j < 4 → sumDur ((doTick s).channels j) = (doTick s).ticks := by
    intro s hq j hj
    rw [doTick_channels s hj, sumDur_emit, doTick_ticks, hq j hj]
  have main := processCmds_inv (fun s => ∀ j, j < 4 → sumDur (s.channels j) = s.ticks)
    (fun s w hq => doWait_inv _ hT (fun s c hq => hq) s w hq)
    (fun s r b hq j hj => by rw [doWrite_channels, doWrite_ticks]; exact hq j hj)
    cs initState out h (fun j hj => by simp [initState, sumDur])
  exact main i hi

/-- Witness for `c4_time_conservation` on the stream `csC4` (three ticks:
one from the first wait, two from the second). -/
theorem c4_time_conservation_witness :
    sumDur (((processCmds csC4 initState).getD initState).channels 0) =
      ((processCmds csC4 initState).getD initState).ticks :=
  c4_time_conservation csC4 _ rfl (by decide)

/-! ## Claim C5 -/

/-- A channel whose length counter is 0 stays at 0 across ticks and
receives only pitch-0 emissions. -/
theorem runTicks_silent {i : Nat} (hi : i < 4) :
    ∀ (n : Nat) (s : APUState), s.length_counters i = 0 →
      (runTicks n s).channels i = (fun tl => emit tl 0)^[n] (s.channels i) ∧
        (runTicks n s).length_counters i = 0 := by
  intro n
  induction n with
  | zero => intro s h0; exact ⟨rfl, h0⟩
  | succ n ih =>
    intro s h0
    have hlc : (doTick s).length_counters i = 0 := by
      rw [doTick_length_counters s hi, h0]
      split <;> rfl
    have hch : (doTick s).channels i = emit (s.channels i) 0 := by
      rw [doTick_channels s hi, resolvePitch_of_length_zero s i h0]
    obtain ⟨h1, h2⟩ := ih (doTick s) hlc
    refine ⟨?_, h2⟩
    show (runTicks n (doTick s)).channels i = _
    rw [h1, hch, Function.iterate_succ_apply]

/-- Claim C5: at any state whose channel `i` has `length_counter = 0` the
resolved pitch is 0 — whatever the volume nibble and the halt bit hold —
and consequently `N` consecutive ticks starting from such a state feed
exactly `N` pitch-0 emissions to that channel's encoder (the counter also
stays 0 across those ticks). -/
theorem c5_zero_length_silences (s : APUState) (i : Nat)
    (h : s.length_counters i = 0) :
    resolvePitch s i = 0 ∧
      (i < 4 → ∀ n, (runTicks n s).channels i = (fun tl => emit tl 0)^[n] (s.channels i)) :=
  ⟨resolvePitch_of_length_zero s i h, fun hi n => (runTicks_silent hi n s h).1⟩

/-- Witness for `c5_zero_length_silences` at channel 0 of the initial
state, over two ticks. -/
theorem c5_zero_length_silences_witness :
    resolvePitch initState 0 = 0 ∧
      (runTicks 2 initState).channels 0 = (fun tl => emit tl 0)^[2] (initState.channels 0) :=
  ⟨(c5_zero_length_silences initState 0 rfl).1,
   (c5_zero_length_silences initState 0 rfl).2 (by decide) 2⟩

/-! ## Claim C9 -/

/-- Claim C9: on a tick, channel `i`'s length counter is decremented by
exactly 1 (floored at 0 — `Nat` subtraction) precisely when the tick's
gate is open and bit 7 of the channel's register slot 0 is clear; in every
other case the tick leaves it unchanged. -/
theorem c9_counter_clocking (s : APUState) {i : Nat} (hi : i < 4) :
    ((gateOf s = true ∧ s.channel_regs i 0 &&& 0x80 = 0) →
        (doTick s).length_counters i = s.length_counters i - 1) ∧
      (¬(gateOf s = true ∧ s.channel_regs i 0 &&& 0x80 = 0) →
        (doTick s).length_counters i = s.length_counters i) := by
  rw [doTick_length_counters s hi]
  constructor
  · intro h
    rw [if_pos h]
  · intro h
    rw [if_neg h]

/-- Witness for `c9_counter_clocking`: the initial state has the gate open
(4-step mode) and the halt bit clear, so channel 0's counter is "clocked"
(staying at 0 because of the floor). -/
theorem c9_counter_clocking_witness :
    (doTick initState).length_counters 0 = initState.length_counters 0 - 1 :=
  (c9_counter_clocking initState (by decide)).1 (by decide)

/-! ## Claim C6 -/

/-- Claim C6: writing `byte` to slot 3 of any channel reloads that
channel's length counter with `LENGTH_TBL[byte >> 3] * 2` (the table is
indexed by the top five bits of the byte and the value doubled); for the
Triangle channel the stored value is instead the minimum of that length
and the current linear-counter reload. -/
theorem c6_length_reload (s : APUState) (reg byte : Nat)
    (hreg : reg < 0x10) (hslot : reg % 4 = 3) (_hbyte : byte < 256) :
    (doWrite s reg byte).length_counters (reg / 4) =
      if reg / 4 = TRI then
        min (LENGTH_TBL.getD (byte >>> 3) 0 * 2) s.linear_counter_reload
      else LENGTH_TBL.getD (byte >>> 3) 0 * 2 := by
  simp [doWrite, hslot, hreg]

/-- Witness for `c6_length_reload`: writing `0x18` to register `0x0B`
(Triangle, slot 3) stores `min (LENGTH_TBL[3] * 2) linear_counter_reload
= min 4 0 = 0`. -/
theorem c6_length_reload_witness :
    (doWrite initState 0x0B 0x18).length_counters (0x0B / 4) =
      if 0x0B / 4 = TRI then
        min (LENGTH_TBL.getD (0x18 >>> 3) 0 * 2) initState.linear_counter_reload
      else LENGTH_TBL.getD (0x18 >>> 3) 0 * 2 :=
  c6_length_reload initState 0x0B 0x18 (by decide) (by decide) (by decide)

/-! ## Claim C7 -/

/-- One `emit` preserves the duration cap and the no-equal-adjacent-pitch
property (adjacent equal pitches only below a 9999-duration first note). -/
theorem emit_cap_chain (tl : List Note) (p : Nat)
    (hcap : ∀ n ∈ tl, n.duration ≤ 9999)
    (hrle : List.Chain' (fun a b => a.pitch = b.pitch → a.duration = 9999) tl) :
    (∀ n ∈ emit tl p, n.duration ≤ 9999) ∧
      List.Chain' (fun a b => a.pitch = b.pitch → a.duration = 9999) (emit tl p) := by
  cases h : tl.getLast? with
  | none =>
    rw [List.getLast?_eq_none_iff] at h
    subst h
    refine ⟨?_, ?_⟩
    · intro n hn
      rw [show emit [] p = [⟨p, 1⟩] from rfl, List.mem_singleton] at hn
      subst hn
      exact (by omega : (1 : Nat) ≤ 9999)
    · rw [show emit [] p = [⟨p, 1⟩] from rfl]
      exact List.chain'_singleton _
  | some last =>
    have hd : tl.dropLast ++ [last] = tl := List.dropLast_append_getLast? last h
    have hmem : last ∈ tl := by
      obtain ⟨hne, heq⟩ := List.mem_getLast?_eq_getLast h
      rw [heq]
      exact List.getLast_mem hne
    simp only [emit, h]
    split
    next hcond =>
      obtain ⟨hp, hdur⟩ := hcond
      refine ⟨?_, ?_⟩
      · intro n hn
        rcases List.mem_append.1 hn with hn | hn
        · exact hcap n (List.dropLast_subset tl hn)
        · rw [List.mem_singleton] at hn
          subst hn
          show last.duration + 1 ≤ 9999
          omega
      · rw [← hd] at hrle
        rcases List.chain'_append.1 hrle with ⟨h1, _h2, h3⟩
        refine List.chain'_append.2 ⟨h1, List.chain'_singleton _, ?_⟩
        intro x hx y hy
        rw [List.head?_cons, Option.mem_def, Option.some.injEq] at hy
        subst hy
        intro hpx
        exact h3 x hx last rfl hpx
    next hcond =>
      push_neg at hcond
      refine ⟨?_, ?_⟩
      · intro n hn
        rcases List.mem_append.1 hn with hn | hn
        · exact hcap n hn
        · rw [List.mem_singleton] at hn
          subst hn
          exact (by omega : (1 : Nat) ≤ 9999)
      · refine List.chain'_append.2 ⟨hrle, List.chain'_singleton _, ?_⟩
        intro x hx y hy
        rw [h, Option.mem_def, Option.some.injEq] at hx
        subst hx
        rw [List.head?_cons, Option.mem_def, Option.some.injEq] at hy
        subst hy
        intro hpx
        have h1 := hcond hpx.symm
        have h2 := hcap last hmem
        omega

/-- Claim C7: on every successful run, every note of every channel's
timeline has duration at most 9999, and two adjacent notes share a pitch
only when the earlier note's duration is exactly 9999 (the run-length
encoding is minimal up to the duration cap). -/
theorem c7_encoder_contract (cs : List Command) (out : APUState)
    (h : processCmds cs initState = some out) {i : Nat} (hi : i < 4) :
    (∀ n ∈ out.channels i, n.duration ≤ 9999) ∧
      List.Chain' (fun a b => a.pitch = b.pitch → a.duration = 9999)
        (out.channels i) := by
  have hT : ∀ s : APUState,
      (∀ j, j < 4 → (∀ n ∈ s.channels j, n.duration ≤ 9999) ∧
        List.Chain' (fun a b => a.pitch = b.pitch → a.duration = 9999) (s.channels j)) →
      ∀ j, j < 4 → (∀ n ∈ (doTick s).channels j, n.duration ≤ 9999) ∧
        List.Chain' (fun a b => a.pitch = b.pitch → a.duration = 9999)
          ((doTick s).channels j) := by
    intro s hq j hj
    rw [doTick_channels s hj]
    exact emit_cap_chain _ _ (hq j hj).1 (hq j hj).2
  have hinit : ∀ j, j < 4 → (∀ n ∈ initState.channels j, n.duration ≤ 9999) ∧
      List.Chain' (fun a b => a.pitch = b.pitch → a.duration = 9999)
        (initState.channels j) := by
    intro j hj
    constructor
    · intro n hn
      rw [show initState.channels j = [⟨0, 0⟩] from rfl, List.mem_singleton] at hn
      subst hn
      decide
    · exact List.chain'_singleton (⟨0, 0⟩ : Note)
  exact processCmds_inv
    (fun s => ∀ j, j < 4 → (∀ n ∈ s.channels j, n.duration ≤ 9999) ∧
      List.Chain' (fun a b => a.pitch = b.pitch → a.duration = 9999) (s.channels j))
    (fun s w hq => doWait_inv _ hT (fun s c hq => hq) s w hq)
    (fun s r b hq j hj => by rw [doWrite_channels]; exact hq j hj)
    cs initState out h hinit i hi

/-- Witness for `c7_encoder_contract` on the Noise channel of `csC7`. -/
theorem c7_encoder_contract_witness :
    (∀ n ∈ ((processCmds csC7 initState).getD initState).channels 3, n.duration ≤ 9999) ∧
      List.Chain' (fun a b => a.pitch = b.pitch → a.duration = 9999)
        (((processCmds csC7 initState).getD initState).channels 3) :=
  c7_encoder_contract csC7 _ rfl (by decide)

/-! ## Claim C8 -/

/-- Claim C8: an `EndOfStream` (opcode `0x66`) command halts processing on
the spot — the state (and hence every timeline, and the partially
accumulated sub-tick sample time) is returned exactly as it stood, and
whatever commands follow it are ignored. -/
theorem c8_end_of_stream (pre : List Command) (d : List Nat)
    (rest : List Command) (s : APUState) :
    processCmds (⟨0x66, d⟩ :: rest) s = some s ∧
      processCmds (pre ++ ⟨0x66, d⟩ :: rest) s = processCmds (pre ++ [⟨0x66, d⟩]) s := by
  have himm : ∀ (rest : List Command) (s : APUState),
      processCmds (⟨0x66, d⟩ :: rest) s = some s := by
    intro rest s
    simp [processCmds]
  refine ⟨himm rest s, ?_⟩
  induction pre generalizing s with
  | nil => rw [List.nil_append, List.nil_append, himm, himm]
  | cons c pre ih =>
    rw [List.cons_append, List.cons_append]
    simp only [processCmds]
    split
    · cases hw : waitTime c with
      | none => rfl
      | some w => exact ih (doWait s w)
    · split
      · split
        next r b heq => exact ih (doWrite s r b)
        next => rfl
      · split
        · rfl
        · exact ih s

/-! ## Claim C10 -/

theorem resolvePitch_setReg4015 (x : Nat) (s : APUState) (i : Nat) :
    resolvePitch (setReg4015 x s) i = resolvePitch s i := rfl

theorem gateOf_setReg4015 (x : Nat) (s : APUState) :
    gateOf (setReg4015 x s) = gateOf s := rfl

theorem tickChannel_setReg4015 (g : Bool) (x : Nat) (s : APUState) (i : Nat) :
    tickChannel g (setReg4015 x s) i = setReg4015 x (tickChannel g s i) := by
  simp only [tickChannel, setReg4015]
  split <;> rfl

theorem doTick_setReg4015 (x : Nat) (s : APUState) :
    doTick (setReg4015 x s) = setReg4015 x (doTick s) := by
  simp only [doTick, List.foldl]
  rw [gateOf_setReg4015]
  rw [tickChannel_setReg4015, tickChannel_setReg4015, tickChannel_setReg4015,
    tickChannel_setReg4015]
  rfl

theorem runTicks_setReg4015 : ∀ (n x : Nat) (s : APUState),
    runTicks n (setReg4015 x s) = setReg4015 x (runTicks n s) := by
  intro n
  induction n with
  | zero => intro x s; rfl
  | succ n ih =>
    intro x s
    show runTicks n (doTick (setReg4015 x s)) = _
    rw [doTick_setReg4015, ih]
    rfl

theorem doWait_setReg4015 (x : Nat) (s : APUState) (w : Nat) :
    doWait (setReg4015 x s) w = setReg4015 x (doWait s w) := by
  show runTicks ((s.clock + w) / SAMPLES_PER_TICK)
      (setReg4015 x { s with clock := s.clock + w }) = _
  rw [runTicks_setReg4015]
  rfl

theorem doWrite_setReg4015_ne (x : Nat) (s : APUState) {r : Nat} (b : Nat)
    (hr : r ≠ 0x15) :
    doWrite (setReg4015 x s) r b = setReg4015 x (doWrite s r b) := by
  simp only [doWrite, setReg4015]
  split_ifs <;> rfl

theorem scrub_doWait (s t : APUState) (w : Nat) (h : scrub s = scrub t) :
    scrub (doWait s w) = scrub (doWait t w) := by
  calc scrub (doWait s w)
      = scrub (doWait (setReg4015 s.reg4015 (scrub s)) w) := rfl
    _ = scrub (setReg4015 s.reg4015 (doWait (scrub s) w)) := by rw [doWait_setReg4015]
    _ = scrub (doWait (scrub s) w) := rfl
    _ = scrub (doWait (scrub t) w) := by rw [h]
    _ = scrub (setReg4015 t.reg4015 (doWait (scrub t) w)) := rfl
    _ = scrub (doWait (setReg4015 t.reg4015 (scrub t)) w) := by rw [doWait_setReg4015]
    _ = scrub (doWait t w) := rfl

theorem scrub_doWrite (s t : APUState) (r b : Nat) (h : scrub s = scrub t) :
    scrub (doWrite s r b) = scrub (doWrite t r b) := by
  by_cases hr : r = 0x15
  · subst hr
    calc scrub (doWrite s 0x15 b) = scrub (setReg4015 b s) := rfl
      _ = scrub s := rfl
      _ = scrub t := h
      _ = scrub (setReg4015 b t) := rfl
      _ = scrub (doWrite t 0x15 b) := rfl
  · calc scrub (doWrite s r b)
        = scrub (doWrite (setReg4015 s.reg4015 (scrub s)) r b) := rfl
      _ = scrub (setReg4015 s.reg4015 (doWrite (scrub s) r b)) := by
            rw [doWrite_setReg4015_ne _ _ b hr]
      _ = scrub (doWrite (scrub s) r b) := rfl
      _ = scrub (doWrite (scrub t) r b) := by rw [h]
      _ = scrub (setReg4015 t.reg4015 (doWrite (scrub t) r b)) := rfl
      _ = scrub (doWrite (setReg4015 t.reg4015 (scrub t)) r b) := by
            rw [doWrite_setReg4015_ne _ _ b hr]
      _ = scrub (doWrite t r b) := rfl

/-- Processing two streams that differ only in `0x15` writes from two
states that agree outside `reg4015` yields results that agree outside
`reg4015`. -/
theorem processCmds_scrub {cs1 cs2 : List Command}
    (hf : List.Forall₂ similar15 cs1 cs2) :
    ∀ s t, scrub s = scrub t →
      (processCmds cs1 s).map scrub = (processCmds cs2 t).map scrub := by
  induction hf with
  | nil =>
    intro s t h
    simp only [processCmds, Option.map_some']
    rw [h]
  | @cons c1 c2 rest1 rest2 hc hrest ih =>
    intro s t h
    rcases hc with rfl | ⟨b1, b2, rfl, rfl⟩
    · simp only [processCmds]
      split
      · cases hw : waitTime c1 with
        | none => rfl
        | some w => exact ih _ _ (scrub_doWait s t w h)
      · split
        · split
          next r b heq => exact ih _ _ (scrub_doWrite s t r b h)
          next => rfl
        · split
          · simp only [Option.map_some']
            rw [h]
          · exact ih _ _ h
    · show (processCmds rest1 (doWrite s 0x15 b1)).map scrub =
        (processCmds rest2 (doWrite t 0x15 b2)).map scrub
      exact ih _ _ h

/-- Claim C10: the stored enable-mask byte (chip register `0x15`) is
write-only for this core — two command streams that differ only in the
values written to `0x15` produce identical channel timelines. -/
theorem c10_enable_mask_noninterference (cs1 cs2 : List Command)
    (h : List.Forall₂ similar15 cs1 cs2) :
    process_vgm cs1 = process_vgm cs2 := by
  have hs := processCmds_scrub h initState initState rfl
  have hmap : ∀ o : Option APUState,
      o.map (fun s => s.channels) = (o.map scrub).map (fun s => s.channels) := by
    intro o
    cases o <;> rfl
  unfold process_vgm
  rw [hmap, hs, ← hmap]

/-- Witness for `c10_enable_mask_noninterference` on `csC10a`/`csC10b`,
which differ only in the byte written to `0x15`. -/
theorem c10_enable_mask_noninterference_witness :
    process_vgm csC10a = process_vgm csC10b :=
  c10_enable_mask_noninterference csC10a csC10b
    (List.Forall₂.cons (Or.inr ⟨0x00, 0x1F, rfl, rfl⟩)
      (List.Forall₂.cons (Or.inl rfl) List.Forall₂.nil))

end Conv
